import Mathlib

/-!
Verification of the escalation engine of RouterOS-Blocklist-Sync (`src/main.go`).

Modelling conventions:
- Go strings are lists of characters (`GoStr`); all strings that matter here are
  ASCII, where Go's byte-wise operations and the character-wise model agree.
- Go `int` is `Int`; byte values are `Nat` (kept below 256 by the parsers).
- Go `map[string]int` is an association list together with an `Option` layer
  whose `none` is Go's nil map (readable as empty, but panicking on writes).
- A Go runtime panic is `none` in an `Option`-valued result.
- Standard-library routines the source calls (`net.ParseIP`, `net.ParseCIDR`,
  `(*net.IPNet).Contains`, `net.IP.String`, `strings` helpers, `fmt.Sprintf`
  with `%02d`, and `encoding/json` marshalling of `map[string]int`) are
  embedded following the Go standard library's own algorithms, restricted to
  the inputs this program can hand them.
-/

/-- Go strings, modelled as lists of characters. -/
abbrev GoStr := List Char

/-- The character for a digit value below 16, lowercase as Go emits it. -/
def digitChar (d : Nat) : Char :=
  if d < 10 then Char.ofNat (48 + d) else Char.ofNat (87 + d)

/-- Fuelled core of Go's decimal integer formatting (`strconv` `fmtbits`):
digits of `n` in base 10, most significant first, prepended to `acc`. -/
def natCharsAux : Nat → Nat → List Char → List Char
  | 0, _, acc => acc
  | fuel + 1, n, acc =>
    if n < 10 then digitChar n :: acc
    else natCharsAux fuel (n / 10) (digitChar (n % 10) :: acc)

/-- Decimal representation of a natural number (Go `strconv` formatting). -/
def natChars (n : Nat) : List Char := natCharsAux (n + 1) n []

/-- Decimal representation of an integer, with `-` for negatives, as Go's
`strconv.AppendInt` renders `int` values. -/
def intChars (i : Int) : List Char :=
  if i < 0 then '-' :: natChars i.natAbs else natChars i.toNat

/-- Go `fmt.Sprintf` with verb `%02d`: the decimal representation of `n`,
left-padded with `0` to a minimum width of two characters (a sign counts
toward the width, exactly as in Go's `fmt`). -/
def sprintf02d (n : Int) : GoStr :=
  let s := intChars n
  if s.length < 2 then List.replicate (2 - s.length) '0' ++ s else s

/-- `getTimeout` from `src/main.go` lines 237-242.  `none` models the Go
runtime panic of the out-of-bounds index `hours[count-1]`, which occurs
exactly when `count ≤ 0` while `count ≤ len(hours)`; every other input
returns the string Go returns. -/
def getTimeout (count : Int) (hours : List Int) : Option GoStr :=
  if count ≤ (hours.length : Int) then
    if 0 ≤ count - 1 then
      (hours.get? (count - 1).toNat).map
        (fun h => sprintf02d h ++ [':', '0', '0', ':', '0', '0'])
    else none
  else some ['0']

/-- C1: for every schedule and every count `c` with `1 ≤ c ≤ len(schedule)`,
`getTimeout` returns the timed outcome built from `schedule[c-1]`: the hour
rendered by `%02d` (zero-padded to a minimum of two digits) followed by
`:00:00`. -/
theorem getTimeout_timed (hours : List Int) (c : Int)
    (h1 : 1 ≤ c) (h2 : c ≤ (hours.length : Int)) :
    getTimeout c hours =
      some (sprintf02d (hours.getD (c - 1).toNat 0) ++ [':', '0', '0', ':', '0', '0']) := by
  have hlt : (c - 1).toNat < hours.length := by omega
  unfold getTimeout
  rw [if_pos h2, if_pos (by omega : (0 : Int) ≤ c - 1)]
  cases hx : hours.get? (c - 1).toNat with
  | none => exact absurd (List.get?_eq_none.mp hx) (by omega)
  | some x =>
    rw [List.getD_eq_getElem?_getD, ← List.get?_eq_getElem?, hx]
    rfl

/-- Witness for C1: schedule `[1,3,7]` and count 2 give `03:00:00`. -/
theorem getTimeout_timed_witness :
    getTimeout 2 [1, 3, 7] = some ['0', '3', ':', '0', '0', ':', '0', '0'] := by
  have h := getTimeout_timed [1, 3, 7] 2 (by decide) (by decide)
  rw [h]; rfl

/-- C2: for every schedule and every count strictly above the schedule's
length, `getTimeout` returns the permanent sentinel `"0"`, the same value for
every such count; with the empty schedule this covers every count `c ≥ 1`. -/
theorem getTimeout_permanent (hours : List Int) (c : Int)
    (h : (hours.length : Int) < c) : getTimeout c hours = some ['0'] := by
  unfold getTimeout
  rw [if_neg (by omega)]

/-- Witness for C2: schedule `[1,3,7]` with count 4 yields the sentinel. -/
theorem getTimeout_permanent_witness : getTimeout 4 [1, 3, 7] = some ['0'] :=
  getTimeout_permanent [1, 3, 7] 4 (by decide)

/-- C6: under the claim's stated precondition `count ≥ 1` (increment always
precedes the decision), `getTimeout` is total: no out-of-bounds access occurs
and a result is returned for every schedule.  Determinism — identical
`(count, schedule)` pairs giving identical outcomes — is inherent in its
embedding as a pure function of exactly those two arguments. -/
theorem getTimeout_total (count : Int) (hours : List Int) (h : 1 ≤ count) :
    (getTimeout count hours).isSome = true := by
  unfold getTimeout
  by_cases hle : count ≤ (hours.length : Int)
  · rw [if_pos hle, if_pos (by omega : (0 : Int) ≤ count - 1)]
    have hlt : (count - 1).toNat < hours.length := by omega
    cases hx : hours.get? (count - 1).toNat with
    | none => exact absurd (List.get?_eq_none.mp hx) (by omega)
    | some x => simp
  · rw [if_neg hle]; rfl

/-- Witness for C6: count 1 with the empty schedule still yields a result. -/
theorem getTimeout_total_witness : (getTimeout 1 []).isSome = true :=
  getTimeout_total 1 [] (by decide)

/-- Go `strings.Contains(s, string(c))` for a one-character needle. -/
def goContains (c : Char) (s : GoStr) : Bool := s.any (fun x => x = c)

/-- The white-space set of Go's `unicode.IsSpace`, used by
`strings.TrimSpace`, by code point: space, tab, LF, CR, VT, FF, NEL, NBSP,
and the Unicode space separators. -/
def goIsSpace (c : Char) : Bool :=
  c.toNat = 32 || c.toNat = 9 || c.toNat = 10 || c.toNat = 13 ||
  c.toNat = 11 || c.toNat = 12 || c.toNat = 133 || c.toNat = 160 ||
  c.toNat = 5760 || (8192 ≤ c.toNat && c.toNat ≤ 8202) ||
  c.toNat = 8232 || c.toNat = 8233 || c.toNat = 8239 || c.toNat = 8287 ||
  c.toNat = 12288

/-- Characters satisfying `p` removed from both ends (Go `strings.Trim` /
`strings.TrimFunc` with the corresponding character set). -/
def trimBoth (p : Char → Bool) (s : GoStr) : GoStr :=
  ((s.dropWhile p).reverse.dropWhile p).reverse

/-- Go `strings.Trim(s, "\"")`. -/
def trimQuotes (s : GoStr) : GoStr := trimBoth (fun c => c = '"') s

/-- Go `strings.TrimSpace`. -/
def goTrimSpace (s : GoStr) : GoStr := trimBoth goIsSpace s

/-- Go `net`'s `dtoi`: the leading decimal number of `s` and how many
characters it occupies; `none` when there is no digit or the value reaches
the `0xFFFFFF` cutoff (Go's `ok == false`). -/
def dtoiAux : GoStr → Nat → Nat → Option (Nat × Nat)
  | [], n, i => if i = 0 then none else some (n, i)
  | c :: rest, n, i =>
    if '0' ≤ c ∧ c ≤ '9' then
      let n2 := n * 10 + (c.toNat - 48)
      if 0xFFFFFF ≤ n2 then none else dtoiAux rest n2 (i + 1)
    else if i = 0 then none else some (n, i)

def dtoi (s : GoStr) : Option (Nat × Nat) := dtoiAux s 0 0

/-- Go `net`'s `xtoi`: the leading hexadecimal number and its width. -/
def xtoiAux : GoStr → Nat → Nat → Option (Nat × Nat)
  | [], n, i => if i = 0 then none else some (n, i)
  | c :: rest, n, i =>
    if '0' ≤ c ∧ c ≤ '9' then
      let n2 := n * 16 + (c.toNat - 48)
      if 0xFFFFFF ≤ n2 then none else xtoiAux rest n2 (i + 1)
    else if 'a' ≤ c ∧ c ≤ 'f' then
      let n2 := n * 16 + (c.toNat - 97 + 10)
      if 0xFFFFFF ≤ n2 then none else xtoiAux rest n2 (i + 1)
    else if 'A' ≤ c ∧ c ≤ 'F' then
      let n2 := n * 16 + (c.toNat - 65 + 10)
      if 0xFFFFFF ≤ n2 then none else xtoiAux rest n2 (i + 1)
    else if i = 0 then none else some (n, i)

def xtoi (s : GoStr) : Option (Nat × Nat) := xtoiAux s 0 0

/-- The 12-byte marker Go places before the 4 bytes of an IPv4 address when
it stores it in 16-byte form (`net.IPv4`). -/
def v4in6 : List Nat := [0, 0, 0, 0, 0, 0, 0, 0, 0, 0, 255, 255]

/-- The field loop of Go `net.parseIPv4`: four decimal fields separated by
dots, each at most 255, leading zeros rejected, input fully consumed. -/
def parseIPv4Aux : Nat → GoStr → List Nat → Option (List Nat)
  | 0, s, acc => if s.isEmpty then some acc else none
  | fld + 1, s, acc =>
    match (if acc.isEmpty then some s else
            match s with
            | '.' :: r => some r
            | _ => none) with
    | none => none
    | some s1 =>
      match dtoi s1 with
      | none => none
      | some (n, c) =>
        if n > 255 then none
        else if c > 1 ∧ s1.head? = some '0' then none
        else parseIPv4Aux fld (s1.drop c) (acc ++ [n])

/-- Go `net.parseIPv4`, yielding the 16-byte form `net.IPv4` builds. -/
def parseIPv4 (s : GoStr) : Option (List Nat) :=
  (parseIPv4Aux 4 s []).map (fun p => v4in6 ++ p)

/-- The field loop of Go `net.parseIPv6`, with fuel (every iteration consumes
at least one character, so `s.length + 1` fuel always suffices).  `w` is the
byte sequence written so far (Go's index `i` is `w.length`), `ell` the
recorded `::` position.  Returns the remaining input with the final bytes
and ellipsis, or `none` for the failures Go reports. -/
def parseIPv6Loop : Nat → GoStr → List Nat → Option Nat →
    Option (GoStr × List Nat × Option Nat)
  | 0, _, _, _ => none
  | fuel + 1, s, w, ell =>
    if 16 ≤ w.length then some (s, w, ell)
    else
      match xtoi s with
      | none => none
      | some (n, c) =>
        if n > 0xFFFF then none
        else if (s.drop c).head? = some '.' then
          if ell.isNone ∧ w.length ≠ 12 then none
          else if w.length + 4 > 16 then none
          else
            match parseIPv4 s with
            | none => none
            | some ip4 => some ([], w ++ ip4.drop 12, ell)
        else
          let w2 := w ++ [n / 256, n % 256]
          match s.drop c with
          | [] => some ([], w2, ell)
          | c1 :: rest1 =>
            if c1 ≠ ':' ∨ rest1 = [] then none
            else
              match rest1 with
              | ':' :: rest2 =>
                if ell.isSome then none
                else if rest2 = [] then some ([], w2, some w2.length)
                else parseIPv6Loop fuel rest2 w2 (some w2.length)
              | _ => parseIPv6Loop fuel rest1 w2 ell

/-- Go `net.parseIPv6` (zones, which `net.ParseIP` rejects, fail here because
`%` terminates a field without a following `:`). -/
def parseIPv6 (s : GoStr) : Option (List Nat) :=
  match s with
  | ':' :: ':' :: [] => some (List.replicate 16 0)
  | _ =>
    let p := match s with
      | ':' :: ':' :: rest => (rest, some 0)
      | _ => (s, (none : Option Nat))
    match parseIPv6Loop (p.1.length + 1) p.1 [] p.2 with
    | none => none
    | some (sRem, w, ell) =>
      if sRem ≠ [] then none
      else if w.length < 16 then
        match ell with
        | none => none
        | some e => some (w.take e ++ List.replicate (16 - w.length) 0 ++ w.drop e)
      else
        match ell with
        | some _ => none
        | none => some w

/-- Go `net.ParseIP`: the first `.` or `:` encountered selects the IPv4 or
IPv6 parser; a string with neither is not an IP. -/
def parseIP (s : GoStr) : Option (List Nat) :=
  match s.find? (fun c => c = '.' || c = ':') with
  | some c => if c = '.' then parseIPv4 s else parseIPv6 s
  | none => none

/-- Go `net.IP.To4`: the 4-byte form of a 4-byte, or v4-in-v6 16-byte,
address. -/
def to4 (ip : List Nat) : Option (List Nat) :=
  if ip.length = 4 then some ip
  else if ip.length = 16 ∧ ip.take 12 = v4in6 then some (ip.drop 12)
  else none

/-- Fuelled core of Go's `appendHex`: minimal lowercase hex digits. -/
def hexCharsAux : Nat → Nat → List Char → List Char
  | 0, _, acc => acc
  | fuel + 1, n, acc =>
    if n < 16 then digitChar n :: acc
    else hexCharsAux fuel (n / 16) (digitChar (n % 16) :: acc)

/-- Minimal lowercase hexadecimal representation (Go `appendHex`). -/
def hexChars (n : Nat) : List Char := hexCharsAux (n + 1) n []

/-- Length of the leading run of zero words. -/
def zeroRunLen : List Nat → Nat
  | [] => 0
  | w :: r => if w = 0 then zeroRunLen r + 1 else 0

/-- The zero-run scan of Go `net.IP.String`, word-indexed: the earliest
longest run of at least two zero words, as start and length. -/
def zeroRunAux : List Nat → Nat → Option (Nat × Nat) → Option (Nat × Nat)
  | [], _, best => best
  | w :: r, i, best =>
    let z := zeroRunLen (w :: r)
    let bl := match best with
      | some (_, l) => l
      | none => 1
    zeroRunAux r (i + 1) (if z > bl then some (i, z) else best)

def zeroRun (ws : List Nat) : Option (Nat × Nat) := zeroRunAux ws 0 none

/-- 16-bit words from consecutive byte pairs. -/
def bytePairs : List Nat → List Nat
  | a :: b :: r => (a * 256 + b) :: bytePairs r
  | _ => []

/-- Fields joined with `.` separators. -/
def joinDot : List GoStr → GoStr
  | [] => []
  | [f] => f
  | f :: r => f ++ '.' :: joinDot r

/-- Fields joined with `:` separators. -/
def joinColon : List GoStr → GoStr
  | [] => []
  | [f] => f
  | f :: r => f ++ ':' :: joinColon r

/-- Go `net.IP.String` on the addresses `parseIP` and `ParseCIDR` produce:
the dotted quad for a 4-byte-representable address, otherwise the RFC 5952
text — lowercase minimal hex fields with the earliest longest run of two or
more zero words compressed to `::`. -/
def ipStringChars (ip : List Nat) : GoStr :=
  match to4 ip with
  | some p4 => joinDot (p4.map natChars)
  | none =>
    let ws := bytePairs ip
    match zeroRun ws with
    | none => joinColon (ws.map hexChars)
    | some (st, len) =>
      joinColon ((ws.take st).map hexChars) ++ ':' :: ':' ::
        joinColon ((ws.drop (st + len)).map hexChars)

/-- `sanitizeIP` from `src/main.go` lines 93-112: strip surrounding quote
characters, keep only the text before the first comma, trim whitespace,
then validate with `net.ParseIP`; the result is the canonical
`net.IP.String` form, or `[]` (Go's empty string) for invalid input. -/
def sanitizeIP (raw : GoStr) : GoStr :=
  let r1 := trimQuotes raw
  let r2 := if goContains ',' r1 then r1.takeWhile (fun c => c ≠ ',') else r1
  let r3 := goTrimSpace r2
  match parseIP r3 with
  | none => []
  | some ip => ipStringChars ip

example : sanitizeIP (("203.0.113.25,extra").toList) = ("203.0.113.25").toList := by decide
example : sanitizeIP (("not-an-ip").toList) = [] := by decide
example : parseIP (("8.8.8.8").toList) = some (v4in6 ++ [8, 8, 8, 8]) := by decide
example : sanitizeIP (("\"1.2.3.4\"").toList) = ("1.2.3.4").toList := by decide
example : sanitizeIP ((" \"1.2.3.4\" ").toList) = [] := by decide
example : sanitizeIP (("2001:db8::1").toList) = ("2001:db8::1").toList := by decide
example : sanitizeIP (("2001:0db8:0000:0000:0000:0000:0000:0001").toList) = ("2001:db8::1").toList := by decide
example : sanitizeIP (("::ffff:1.2.3.4").toList) = ("1.2.3.4").toList := by decide
example : parseIP (("1.2.3.04").toList) = none := by decide
example : parseIP (("256.1.1.1").toList) = none := by decide
example : sanitizeIP (("::").toList) = ("::").toList := by decide
example : sanitizeIP (("fe80::1%eth0").toList) = [] := by decide
example : sanitizeIP (("1:2:3:4:5:6:7:8").toList) = ("1:2:3:4:5:6:7:8").toList := by decide
example : sanitizeIP (("1:0:0:2:0:0:0:3").toList) = ("1:0:0:2::3").toList := by decide

/-- Split at the first `/` (the address/mask split of Go `net.ParseCIDR`). -/
def splitSlash (s : GoStr) : Option (GoStr × GoStr) :=
  if goContains '/' s then
    some (s.takeWhile (fun c => c ≠ '/'), (s.dropWhile (fun c => c ≠ '/')).drop 1)
  else none

/-- Byte construction of Go `net.CIDRMask`: `ones` leading one-bits. -/
def buildMask : Nat → Nat → List Nat
  | _, 0 => []
  | n, l + 1 =>
    if 8 ≤ n then 255 :: buildMask (n - 8) l
    else (255 ^^^ (255 >>> n)) :: buildMask 0 l

/-- Go `net.CIDRMask(ones, bits)` for the bit sizes CIDR parsing produces. -/
def cidrMask (ones bits : Nat) : Option (List Nat) :=
  if (bits = 32 ∨ bits = 128) ∧ ones ≤ bits then some (buildMask ones (bits / 8))
  else none

/-- Go `net.IP.Mask`: width-normalize the address and mask, then AND them. -/
def ipMask (ip m : List Nat) : Option (List Nat) :=
  let m2 := if m.length = 16 ∧ ip.length = 4 ∧ (m.take 12).all (fun b => b == 255)
            then m.drop 12 else m
  let ip2 := if m2.length = 4 ∧ ip.length = 16 ∧ ip.take 12 = v4in6
             then ip.drop 12 else ip
  if ip2.length = m2.length then some (List.zipWith (fun a b => a &&& b) ip2 m2)
  else none

/-- Go `net.ParseCIDR`: the masked network address with its mask (the data of
the `*net.IPNet` the source keeps), or `none` for every input Go reports as a
CIDR parse error.  The address half is tried as dotted-quad first, then as
IPv6, as in Go. -/
def parseCIDR (s : GoStr) : Option (List Nat × List Nat) :=
  match splitSlash s with
  | none => none
  | some (addr, maskStr) =>
    let pr := match parseIPv4 addr with
      | some ip => (some ip, 4)
      | none => (parseIPv6 addr, 16)
    match pr.1 with
    | none => none
    | some ip =>
      match dtoi maskStr with
      | none => none
      | some (n, i) =>
        if i ≠ maskStr.length ∨ n > 8 * pr.2 then none
        else
          match cidrMask n (8 * pr.2) with
          | none => none
          | some m =>
            match ipMask ip m with
            | none => none
            | some nw => some (nw, m)

/-- Go's `networkNumberAndMask`: bring a network's address and mask to
matching widths, 4-byte when possible. -/
def networkNumberAndMask (nnIP mask : List Nat) : Option (List Nat × List Nat) :=
  let ipOpt := match to4 nnIP with
    | some x => some x
    | none => if nnIP.length = 16 then some nnIP else none
  match ipOpt with
  | none => none
  | some ip =>
    if mask.length = 4 then
      if ip.length = 4 then some (ip, mask) else none
    else if mask.length = 16 then
      some (ip, if ip.length = 4 then mask.drop 12 else mask)
    else none

/-- Go `(*net.IPNet).Contains`. -/
def ipnetContains (nnIP mask p : List Nat) : Bool :=
  match networkNumberAndMask nnIP mask with
  | none => false
  | some nm =>
    let ip := match to4 p with
      | some x => x
      | none => p
    ip.length == nm.1.length &&
      (List.zip nm.1 (List.zip nm.2 ip)).all
        (fun t => t.1 &&& t.2.1 == t.2.2 &&& t.2.1)

/-- One whitelist entry check, exactly as the specification words it: trim
the entry; a non-CIDR entry matches by string equality with the canonical
address, a CIDR entry by containment of the parsed address in its network;
an entry `ParseCIDR` rejects matches nothing (and is no error). -/
def entryMatches (ip : GoStr) (p : List Nat) (e : GoStr) : Bool :=
  let t := goTrimSpace e
  if goContains '/' t then
    match parseCIDR t with
    | some nm => ipnetContains nm.1 nm.2 p
    | none => false
  else t == ip

/-- The entry loop of `isWhitelisted` (`src/main.go` lines 198-210): the
first matching entry returns true. -/
def isWhitelistedLoop (ip : GoStr) (p : List Nat) : List GoStr → Bool
  | [] => false
  | e :: rest =>
    let t := goTrimSpace e
    if goContains '/' t = false then
      if t == ip then true else isWhitelistedLoop ip p rest
    else
      match parseCIDR t with
      | some nm =>
        if ipnetContains nm.1 nm.2 p then true else isWhitelistedLoop ip p rest
      | none => isWhitelistedLoop ip p rest

/-- `isWhitelisted` from `src/main.go` lines 192-212. -/
def isWhitelisted (ip : GoStr) (wl : List GoStr) : Bool :=
  match parseIP ip with
  | none => false
  | some p => isWhitelistedLoop ip p wl

/-- The loop agrees with a plain membership test over the entries. -/
theorem isWhitelistedLoop_eq_any (ip : GoStr) (p : List Nat) (wl : List GoStr) :
    isWhitelistedLoop ip p wl = wl.any (fun e => entryMatches ip p e) := by
  induction wl with
  | nil => rfl
  | cons e rest ih =>
    rw [List.any_cons, ← ih]
    simp only [isWhitelistedLoop, entryMatches]
    cases hc : goContains '/' (goTrimSpace e) with
    | false => cases he : (goTrimSpace e == ip) <;> simp [he]
    | true =>
      cases hcd : parseCIDR (goTrimSpace e) with
      | none => simp
      | some nm => cases hin : ipnetContains nm.1 nm.2 p <;> simp [hin]

/-- C5: `isWhitelisted` returns true exactly when the string parses as an IP
and some whitelist entry matches it in the sense of `entryMatches`.  The
short-circuit at the first match does not change this membership semantics,
and a malformed CIDR entry is silently non-matching rather than an error. -/
theorem isWhitelisted_iff_entry (ip : GoStr) (wl : List GoStr) :
    isWhitelisted ip wl = true ↔
      ∃ p, parseIP ip = some p ∧ ∃ e ∈ wl, entryMatches ip p e = true := by
  unfold isWhitelisted
  cases hp : parseIP ip with
  | none => simp
  | some p =>
    show isWhitelistedLoop ip p wl = true ↔ _
    rw [isWhitelistedLoop_eq_any, List.any_eq_true]
    constructor
    · rintro ⟨e, he, hm⟩
      exact ⟨p, rfl, e, he, hm⟩
    · rintro ⟨q, hq, e, he, hm⟩
      cases hq
      exact ⟨e, he, hm⟩

/-- C10: a string that does not parse as an IP address is never whitelisted,
regardless of the entries — the parse check precedes every comparison, so
even a non-CIDR entry equal to the raw string does not match. -/
theorem isWhitelisted_invalid (ip : GoStr) (wl : List GoStr)
    (h : parseIP ip = none) : isWhitelisted ip wl = false := by
  unfold isWhitelisted
  rw [h]

/-- Witness for C10: `"not-an-ip"` is rejected even when the whitelist holds
exactly that string. -/
theorem isWhitelisted_invalid_witness :
    isWhitelisted (("not-an-ip").toList) [("not-an-ip").toList] = false :=
  isWhitelisted_invalid (("not-an-ip").toList) [("not-an-ip").toList] (by decide)

example : isWhitelisted (("8.8.8.8").toList) [("8.8.8.8").toList] = true := by decide
example : isWhitelisted (("192.168.1.50").toList) [("192.168.1.0/24").toList] = true := by decide
example : isWhitelisted (("192.168.2.50").toList) [("192.168.1.0/24").toList] = false := by decide
example : isWhitelisted (("10.0.0.1").toList) [("bad/cidr").toList, (" 10.0.0.1 ").toList] = true := by decide
example : isWhitelisted (("2001:db8::1").toList) [("2001:db8::/32").toList] = true := by decide
example : isWhitelisted (("2001:db9::1").toList) [("2001:db8::/32").toList] = false := by decide
example : parseCIDR (("192.168.1.0/24").toList) = some ([192, 168, 1, 0], [255, 255, 255, 0]) := by decide

/-- An allocated Go `map[string]int`, as an association list. -/
abbrev AssocList := List (GoStr × Int)

/-- A Go map variable of type `map[string]int`: `none` is the nil map, which
reads as empty but panics on assignment. -/
abbrev GoMap := Option AssocList

/-- The entry stored under `k`, if any. -/
def mapLookup (m : AssocList) (k : GoStr) : Option Int :=
  match m.find? (fun e => e.1 == k) with
  | some e => some e.2
  | none => none

/-- The read `m[k]`, with Go's zero value for a missing key. -/
def mapGet (m : AssocList) (k : GoStr) : Int := (mapLookup m k).getD 0

/-- The assignment `m[k] = v` on an allocated map. -/
def mapSet (m : AssocList) (k : GoStr) (v : Int) : AssocList :=
  match m with
  | [] => [(k, v)]
  | e :: rest => if e.1 == k then (k, v) :: rest else e :: mapSet rest k v

/-- The configuration fields (`Config`, src/main.go lines 17-26) that the
per-address processing reads. -/
structure Config where
  whitelist : List GoStr
  escalation : List Int
  listTemp : GoStr
  listPerm : GoStr

/-- A block directive handed to the external RouterOS applier: the
`/ip/firewall/address-list/add` arguments of src/main.go lines 302-320. -/
structure Directive where
  list : GoStr
  addr : GoStr
  timeout : GoStr
deriving DecidableEq

/-- One iteration of the main loop over the input addresses (src/main.go
lines 279-325): sanitize and skip invalid input, skip whitelisted addresses,
increment the offense count, decide the timeout, and emit the directive for
the permanent or temporary list.  `none` is a Go runtime panic: assignment
to a nil state map, or the out-of-bounds access inside `getTimeout`.  The
applier call itself is recorded by `runBatch`. -/
def processIP (cfg : Config) (st : GoMap) (rawIp : GoStr) :
    Option (GoMap × Option Directive) :=
  let ip := sanitizeIP rawIp
  if ip = [] then some (st, none)
  else if isWhitelisted ip cfg.whitelist then some (st, none)
  else
    match st with
    | none => none
    | some m =>
      let cnt := mapGet m ip + 1
      let m2 := mapSet m ip cnt
      match getTimeout cnt cfg.escalation with
      | none => none
      | some t =>
        if t = ['0'] then some (some m2, some ⟨cfg.listPerm, ip, ['0']⟩)
        else some (some m2, some ⟨cfg.listTemp, ip, t⟩)

/-- The batch loop of `main`, parameterized by the external applier's
outcome for each directive (`client.RunArgs`, whose error the source logs
but otherwise ignores).  Returns the final state and the emitted directives
each paired with its applier outcome, or `none` if an iteration panicked. -/
def runBatch (cfg : Config) (applier : Directive → Bool) :
    GoMap → List GoStr → Option (GoMap × List (Directive × Bool))
  | st, [] => some (st, [])
  | st, raw :: rest =>
    match processIP cfg st raw with
    | none => none
    | some (st2, none) => runBatch cfg applier st2 rest
    | some (st2, some d) =>
      let ok := applier d
      match runBatch cfg applier st2 rest with
      | none => none
      | some (stF, log) => some (stF, (d, ok) :: log)

/-- C3: a canonical address matching the whitelist is skipped before the
state update: processing it returns the state map unchanged — its offense
count is not incremented and every other entry is untouched — and emits no
block directive. -/
theorem process_whitelisted_frame (cfg : Config) (st : GoMap) (raw : GoStr)
    (h1 : sanitizeIP raw ≠ [])
    (h2 : isWhitelisted (sanitizeIP raw) cfg.whitelist = true) :
    processIP cfg st raw = some (st, none) := by
  simp only [processIP]
  rw [if_neg h1, if_pos h2]

/-- A concrete configuration used by the witnesses. -/
def cfgW : Config :=
  ⟨[("8.8.8.8").toList, ("192.168.1.0/24").toList], [1, 3, 7],
    ("blocked_attackers").toList, ("blocked_permanent").toList⟩

/-- Witness for C3: a whitelisted address leaves a populated state intact. -/
theorem process_whitelisted_frame_witness :
    processIP cfgW (some [(("9.9.9.9").toList, 2)]) (("8.8.8.8").toList) =
      some (some [(("9.9.9.9").toList, 2)], none) :=
  process_whitelisted_frame cfgW (some [(("9.9.9.9").toList, 2)])
    (("8.8.8.8").toList) (by decide) (by decide)

/-- C9: the applier's outcomes have no influence on processing — runs of the
same batch from the same state under any two appliers yield the same final
state (an already-incremented offense count is never rolled back by a failed
application) and the same directive sequence (no halt: every later address
is still processed identically); only the logged success flags can differ.
In particular the state saved after a run with failures equals the state
saved when every application succeeds, increments included. -/
theorem runBatch_applier_independent (cfg : Config) (ap1 ap2 : Directive → Bool)
    (st : GoMap) (ips : List GoStr) :
    (runBatch cfg ap1 st ips).map (fun r => (r.1, r.2.map (fun x => x.1))) =
      (runBatch cfg ap2 st ips).map (fun r => (r.1, r.2.map (fun x => x.1))) := by
  induction ips generalizing st with
  | nil => rfl
  | cons raw rest ih =>
    simp only [runBatch]
    cases hp : processIP cfg st raw with
    | none => rfl
    | some r =>
      obtain ⟨st2, d⟩ := r
      cases d with
      | none => exact ih st2
      | some d =>
        have h := ih st2
        cases h1 : runBatch cfg ap1 st2 rest with
        | none =>
          cases h2 : runBatch cfg ap2 st2 rest with
          | none => simp [h1, h2]
          | some r2 => rw [h1, h2] at h; simp at h
        | some r1 =>
          cases h2 : runBatch cfg ap2 st2 rest with
          | none => rw [h1, h2] at h; simp at h
          | some r2 =>
            rw [h1, h2] at h
            simp only [Option.map_some', Option.some.injEq, Prod.mk.injEq] at h
            simp [h1, h2, h.1, h.2]

example :
    runBatch cfgW (fun _ => false) (some []) [("203.0.113.25").toList, ("8.8.8.8").toList] =
      runBatch cfgW (fun _ => false) (some []) [("203.0.113.25").toList, ("8.8.8.8").toList] := rfl

/-- The characters `net.IP.String` emits: decimal digits, lowercase hex
letters, dots and colons. -/
def ipOutChar (c : Char) : Bool :=
  (48 ≤ c.toNat && c.toNat ≤ 57) || (97 ≤ c.toNat && c.toNat ≤ 102) ||
  c.toNat = 46 || c.toNat = 58

/-- `Char.ofNat` below the surrogate range keeps its code point. -/
theorem toNat_charOfNat {n : Nat} (h : n < 55296) : (Char.ofNat n).toNat = n := by
  have hv : n.isValidChar := Or.inl h
  rw [Char.ofNat, dif_pos hv]
  rfl

theorem ipOutChar_digitChar {d : Nat} (h : d < 16) :
    ipOutChar (digitChar d) = true := by
  unfold digitChar ipOutChar
  by_cases h10 : d < 10
  · rw [if_pos h10, toNat_charOfNat (by omega)]
    simp only [Bool.or_eq_true, Bool.and_eq_true, decide_eq_true_eq]
    omega
  · rw [if_neg h10, toNat_charOfNat (by omega)]
    simp only [Bool.or_eq_true, Bool.and_eq_true, decide_eq_true_eq]
    omega

theorem natCharsAux_chars :
    ∀ (fuel n : Nat) (acc : List Char), (∀ c ∈ acc, ipOutChar c = true) →
      ∀ c ∈ natCharsAux fuel n acc, ipOutChar c = true := by
  intro fuel
  induction fuel with
  | zero => intro n acc hacc c hc; exact hacc c hc
  | succ fuel ih =>
    intro n acc hacc c hc
    rw [natCharsAux] at hc
    by_cases h10 : n < 10
    · rw [if_pos h10] at hc
      rcases List.mem_cons.mp hc with h | h
      · subst h; exact ipOutChar_digitChar (by omega)
      · exact hacc c h
    · rw [if_neg h10] at hc
      refine ih (n / 10) _ (fun x hx => ?_) c hc
      rcases List.mem_cons.mp hx with h | h
      · subst h; exact ipOutChar_digitChar (by omega)
      · exact hacc x h

theorem natChars_chars (n : Nat) : ∀ c ∈ natChars n, ipOutChar c = true :=
  natCharsAux_chars (n + 1) n [] (fun c hc => absurd hc (List.not_mem_nil c))

theorem hexCharsAux_chars :
    ∀ (fuel n : Nat) (acc : List Char), (∀ c ∈ acc, ipOutChar c = true) →
      ∀ c ∈ hexCharsAux fuel n acc, ipOutChar c = true := by
  intro fuel
  induction fuel with
  | zero => intro n acc hacc c hc; exact hacc c hc
  | succ fuel ih =>
    intro n acc hacc c hc
    rw [hexCharsAux] at hc
    by_cases h16 : n < 16
    · rw [if_pos h16] at hc
      rcases List.mem_cons.mp hc with h | h
      · subst h; exact ipOutChar_digitChar (by omega)
      · exact hacc c h
    · rw [if_neg h16] at hc
      refine ih (n / 16) _ (fun x hx => ?_) c hc
      rcases List.mem_cons.mp hx with h | h
      · subst h; exact ipOutChar_digitChar (by omega)
      · exact hacc x h

theorem hexChars_chars (n : Nat) : ∀ c ∈ hexChars n, ipOutChar c = true :=
  hexCharsAux_chars (n + 1) n [] (fun c hc => absurd hc (List.not_mem_nil c))

theorem joinDot_chars (l : List GoStr)
    (hf : ∀ f ∈ l, ∀ c ∈ f, ipOutChar c = true) :
    ∀ c ∈ joinDot l, ipOutChar c = true := by
  induction l with
  | nil => intro c hc; cases hc
  | cons f r ih =>
    cases r with
    | nil => intro c hc; exact hf f (List.mem_cons_self f []) c hc
    | cons g r2 =>
      intro c hc
      rw [show joinDot (f :: g :: r2) = f ++ '.' :: joinDot (g :: r2) from rfl] at hc
      rcases List.mem_append.mp hc with h | h
      · exact hf f (List.mem_cons_self f (g :: r2)) c h
      · rcases List.mem_cons.mp h with h | h
        · subst h; decide
        · exact ih (fun x hx => hf x (List.mem_cons_of_mem f hx)) c h

theorem joinColon_chars (l : List GoStr)
    (hf : ∀ f ∈ l, ∀ c ∈ f, ipOutChar c = true) :
    ∀ c ∈ joinColon l, ipOutChar c = true := by
  induction l with
  | nil => intro c hc; cases hc
  | cons f r ih =>
    cases r with
    | nil => intro c hc; exact hf f (List.mem_cons_self f []) c hc
    | cons g r2 =>
      intro c hc
      rw [show joinColon (f :: g :: r2) = f ++ ':' :: joinColon (g :: r2) from rfl] at hc
      rcases List.mem_append.mp hc with h | h
      · exact hf f (List.mem_cons_self f (g :: r2)) c h
      · rcases List.mem_cons.mp h with h | h
        · subst h; decide
        · exact ih (fun x hx => hf x (List.mem_cons_of_mem f hx)) c h

/-- Everything `net.IP.String` can return is made of digits, lowercase hex
letters, dots and colons. -/
theorem ipStringChars_chars (ip : List Nat) :
    ∀ c ∈ ipStringChars ip, ipOutChar c = true := by
  intro c hc
  unfold ipStringChars at hc
  cases h4 : to4 ip with
  | some p4 =>
    simp only [h4] at hc
    refine joinDot_chars _ (fun f hf => ?_) c hc
    rcases List.mem_map.mp hf with ⟨n, _, rfl⟩
    exact natChars_chars n
  | none =>
    simp only [h4] at hc
    cases hz : zeroRun (bytePairs ip) with
    | none =>
      simp only [hz] at hc
      refine joinColon_chars _ (fun f hf => ?_) c hc
      rcases List.mem_map.mp hf with ⟨n, _, rfl⟩
      exact hexChars_chars n
    | some sl =>
      obtain ⟨st, len⟩ := sl
      simp only [hz] at hc
      rcases List.mem_append.mp hc with h | h
      · refine joinColon_chars _ (fun f hf => ?_) c h
        rcases List.mem_map.mp hf with ⟨n, _, rfl⟩
        exact hexChars_chars n
      · rcases List.mem_cons.mp h with h | h
        · subst h; decide
        · rcases List.mem_cons.mp h with h | h
          · subst h; decide
          · refine joinColon_chars _ (fun f hf => ?_) c h
            rcases List.mem_map.mp hf with ⟨n, _, rfl⟩
            exact hexChars_chars n

theorem ipOutChar_not_space {c : Char} (h : ipOutChar c = true) :
    goIsSpace c = false := by
  simp only [ipOutChar, Bool.or_eq_true, Bool.and_eq_true, decide_eq_true_eq] at h
  simp only [goIsSpace, Bool.or_eq_true, Bool.and_eq_true, decide_eq_true_eq,
    Bool.eq_false_iff, ne_eq, not_or, not_and]
  omega

theorem ipOutChar_ne {c d : Char} (h : ipOutChar c = true)
    (hd : ipOutChar d = false) : c ≠ d := fun he => by
  rw [he, hd] at h
  exact Bool.false_ne_true h

theorem dropWhile_eq_self_of_none {p : Char → Bool} {s : GoStr}
    (h : ∀ c ∈ s, p c = false) : s.dropWhile p = s := by
  cases s with
  | nil => rfl
  | cons a r =>
    rw [List.dropWhile_cons, h a (List.mem_cons_self a r)]
    simp

theorem trimBoth_eq_self {p : Char → Bool} {s : GoStr}
    (h : ∀ c ∈ s, p c = false) : trimBoth p s = s := by
  unfold trimBoth
  rw [dropWhile_eq_self_of_none h,
    dropWhile_eq_self_of_none (fun c hc => h c (List.mem_reverse.mp hc)),
    List.reverse_reverse]

theorem goContains_eq_false {c : Char} {s : GoStr} (h : ∀ x ∈ s, x ≠ c) :
    goContains c s = false := by
  unfold goContains
  rw [List.any_eq_false]
  intro x hx
  exact fun hb => h x hx (of_decide_eq_true hb)

/-- A string that is already canonical: it parses as an IP, and re-rendering
the parse yields the string itself (the glossary's "normalized string
representation of a parsed IP literal"). -/
def IsCanonical (s : GoStr) : Prop :=
  ∃ ip, parseIP s = some ip ∧ ipStringChars ip = s

/-- C8: normalization is idempotent on canonical addresses — `sanitizeIP`
returns every canonical string unchanged: its characters are digits, hex
letters, dots and colons, so quote-trimming, comma-splitting and whitespace
trimming leave it intact, and parsing plus re-rendering reproduces it.  The
claim's two concrete facts are included: the CSV artifact
`"203.0.113.25,extra"` normalizes to `"203.0.113.25"`, and `"not-an-ip"`
yields the empty (invalid) result. -/
theorem sanitizeIP_canonical :
    (∀ s, IsCanonical s → sanitizeIP s = s) ∧
      sanitizeIP (("203.0.113.25,extra").toList) = ("203.0.113.25").toList ∧
      sanitizeIP (("not-an-ip").toList) = [] := by
  refine ⟨?_, by decide, by decide⟩
  rintro s ⟨ip, hp, hs⟩
  have hchars : ∀ c ∈ s, ipOutChar c = true := by
    rw [← hs]; exact ipStringChars_chars ip
  have h1 : trimQuotes s = s :=
    trimBoth_eq_self (fun c hc => by
      simp only [decide_eq_false_iff_not]
      exact ipOutChar_ne (hchars c hc) (by decide))
  have h2 : goContains ',' s = false :=
    goContains_eq_false (fun x hx => ipOutChar_ne (hchars x hx) (by decide))
  have h3 : goTrimSpace s = s :=
    trimBoth_eq_self (fun c hc => ipOutChar_not_space (hchars c hc))
  simp only [sanitizeIP, h1, h2, Bool.false_eq_true, if_false, h3, hp]
  exact hs

/-- Witness for C8: the canonical `"203.0.113.25"` is returned unchanged. -/
theorem sanitizeIP_canonical_witness :
    sanitizeIP (("203.0.113.25").toList) = ("203.0.113.25").toList :=
  sanitizeIP_canonical.1 (("203.0.113.25").toList)
    ⟨v4in6 ++ [203, 0, 113, 25], by decide, by decide⟩

/-- The left brace character, by code point. -/
def lbrace : Char := Char.ofNat 123

/-- The right brace character, by code point. -/
def rbrace : Char := Char.ofNat 125

/-- Byte-lexicographic string order, the order Go sorts map keys into when
marshalling (ASCII contents make byte order and character order agree). -/
def keyLe : GoStr → GoStr → Bool
  | [], _ => true
  | _ :: _, [] => false
  | a :: as, b :: bs => if a = b then keyLe as bs else decide (a < b)

/-- A character Go's JSON encoder emits verbatim inside a string literal:
printable ASCII except the quote, the backslash, and the HTML-escaped
`<`, `>`, `&`. -/
def safeChar (c : Char) : Bool :=
  (32 ≤ c.toNat && c.toNat ≤ 126) &&
  !(c.toNat = 34 || c.toNat = 92 || c.toNat = 60 || c.toNat = 62 || c.toNat = 38)

/-- One character of a JSON string literal as Go `encoding/json` writes it
(HTML escaping on, the `json.Marshal` default); characters above ASCII other
than the separators U+2028/U+2029 are emitted raw. -/
def escChar (c : Char) : GoStr :=
  if safeChar c then [c]
  else if c.toNat = 34 then ['\\', '"']
  else if c.toNat = 92 then ['\\', '\\']
  else if c.toNat = 10 then ['\\', 'n']
  else if c.toNat = 13 then ['\\', 'r']
  else if c.toNat = 9 then ['\\', 't']
  else if c.toNat < 32 || c.toNat = 60 || c.toNat = 62 || c.toNat = 38 ||
      c.toNat = 8232 || c.toNat = 8233 then
    '\\' :: 'u' :: [digitChar (c.toNat / 4096 % 16), digitChar (c.toNat / 256 % 16),
      digitChar (c.toNat / 16 % 16), digitChar (c.toNat % 16)]
  else [c]

/-- A quoted JSON string literal for `k`. -/
def quoteKey (k : GoStr) : GoStr := '"' :: (k.map escChar).flatten ++ ['"']

/-- One `"key": value` member with the two-space indent of
`json.MarshalIndent(s, "", "  ")`. -/
def printEntry (e : GoStr × Int) : GoStr :=
  ' ' :: ' ' :: quoteKey e.1 ++ ':' :: ' ' :: intChars e.2

/-- The members, separated by `,` and a newline. -/
def printEntries : AssocList → GoStr
  | [] => []
  | [e] => printEntry e
  | e :: rest => printEntry e ++ ',' :: '\n' :: printEntries rest

/-- The key order Go sorts map members into before writing them. -/
def entryLe (a b : GoStr × Int) : Prop := keyLe a.1 b.1 = true

instance : DecidableRel entryLe := fun a b =>
  inferInstanceAs (Decidable (keyLe a.1 b.1 = true))

/-- Go `json.MarshalIndent(s, "", "  ")` for a `map[string]int`: `null` for
the nil map, `{}` for the empty map, otherwise the object with sorted keys
and two-space indentation. -/
def jsonMarshalIndent : GoMap → GoStr
  | none => ('n' :: 'u' :: 'l' :: 'l' :: [])
  | some m =>
    let sorted := List.insertionSort entryLe m
    if sorted.isEmpty then [lbrace, rbrace]
    else lbrace :: '\n' :: printEntries sorted ++ '\n' :: [rbrace]

/-- JSON insignificant whitespace. -/
def jsonWs (c : Char) : Bool :=
  c.toNat = 32 || c.toNat = 9 || c.toNat = 10 || c.toNat = 13

def skipWs (s : GoStr) : GoStr := s.dropWhile jsonWs

/-- A decoded basic JSON escape (after the backslash). -/
def unescapeChar (e : Char) : Option Char :=
  if e = '"' then some '"'
  else if e = '\\' then some '\\'
  else if e = '/' then some '/'
  else if e = 'n' then some '\n'
  else if e = 't' then some '\t'
  else if e = 'r' then some '\r'
  else if e = 'b' then some (Char.ofNat 8)
  else if e = 'f' then some (Char.ofNat 12)
  else none

/-- The body of a JSON string literal (after the opening quote): the decoded
text and the input after the closing quote.  (`\uXXXX` escapes are not
modelled; the state files this program writes never contain them.) -/
def parseKeyBody : GoStr → Option (GoStr × GoStr)
  | [] => none
  | c :: r =>
    if c = '"' then some ([], r)
    else if c = '\\' then
      match r with
      | [] => none
      | e :: r2 =>
        match unescapeChar e with
        | none => none
        | some u => (parseKeyBody r2).map (fun p => (u :: p.1, p.2))
    else (parseKeyBody r).map (fun p => (c :: p.1, p.2))

/-- A JSON string literal. -/
def parseKey : GoStr → Option (GoStr × GoStr)
  | c :: r => if c = '"' then parseKeyBody r else none
  | [] => none

/-- A decimal digit character. -/
def isDigitCh (c : Char) : Bool := 48 ≤ c.toNat && c.toNat ≤ 57

/-- The leading run of decimal digits and its value. -/
def parseDigits (s : GoStr) : Option (Nat × GoStr) :=
  let ds := s.takeWhile isDigitCh
  if ds.isEmpty then none
  else some (ds.foldl (fun a c => 10 * a + (c.toNat - 48)) 0, s.dropWhile isDigitCh)

/-- A JSON integer decoded into a Go `int`: optional minus then digits.  As
in Go's decoder, a value outside the `int64` range leaves the zero value in
the map entry (the type error is dropped by the caller). -/
def parseJInt (s : GoStr) : Option (Int × GoStr) :=
  match s with
  | [] => none
  | c :: r =>
    if c = '-' then
      (parseDigits r).map
        (fun p => (if p.1 ≤ 9223372036854775808 then -(p.1 : Int) else 0, p.2))
    else
      (parseDigits (c :: r)).map
        (fun p => (if p.1 ≤ 9223372036854775807 then (p.1 : Int) else 0, p.2))

/-- The member loop of a JSON object of integers, with fuel (each member
consumes at least one character, so the input length bounds the member
count). -/
def parseEntriesLoop : Nat → GoStr → Option (AssocList × GoStr)
  | 0, _ => none
  | fuel + 1, s =>
    match parseKey (skipWs s) with
    | none => none
    | some (k, r1) =>
      match skipWs r1 with
      | ':' :: r2 =>
        match parseJInt (skipWs r2) with
        | none => none
        | some (v, r3) =>
          match skipWs r3 with
          | ',' :: r4 =>
            (parseEntriesLoop fuel r4).map (fun p => ((k, v) :: p.1, p.2))
          | c :: r4 => if c = rbrace then some ([(k, v)], r4) else none
          | [] => none
      | _ => none

/-- A JSON object of integer members starting at `s`. -/
def parseObj (s : GoStr) : Option (AssocList × GoStr) :=
  match skipWs s with
  | c :: r =>
    if c = lbrace then
      match skipWs r with
      | c2 :: r2 =>
        if c2 = rbrace then some ([], r2)
        else parseEntriesLoop (s.length + 1) (c2 :: r2)
      | [] => none
    else none
  | [] => none

/-- The map assembled from the decoded members, in order; a later duplicate
key overwrites, as for a Go map. -/
def entriesToMap (es : AssocList) : AssocList :=
  es.foldl (fun acc e => mapSet acc e.1 e.2) []

/-- The value of `s` after `json.Unmarshal(content, &s)` on a nil
`map[string]int` variable `s`: `none` when the decode leaves `s` nil —
syntactically invalid JSON (Go validates before decoding), JSON `null`, or a
non-object document — and the decoded mapping when the document is an object
of integers.  (Go's partial decoding of objects whose member values are
mistyped is not modelled; it does not arise for state files written by
`saveState`.) -/
def jsonUnmarshalMap (content : GoStr) : Option AssocList :=
  match parseObj content with
  | some (es, rest) => if skipWs rest = [] then some (entriesToMap es) else none
  | none => none

/-- The outcome of `os.ReadFile` on the state path. -/
inductive FileRead where
  | notExist
  | readErr
  | content (s : GoStr)

/-- `loadState` from `src/main.go` lines 216-228: a missing file yields an
allocated empty map and no error; another read error is returned; otherwise
the `json.Unmarshal` error is ignored and whatever the decode left in `s` —
the nil map, for malformed content — is returned with no error. -/
def loadState : FileRead → Except Unit GoMap
  | .notExist => .ok (some [])
  | .readErr => .error ()
  | .content raw => .ok (jsonUnmarshalMap raw)

/-- `saveState` from `src/main.go` lines 230-233: the content written to the
state file (the `WriteFile` error is discarded by the source). -/
def saveState (s : GoMap) : GoStr := jsonMarshalIndent s

example : jsonUnmarshalMap (("oops").toList) = none := by decide
example : jsonUnmarshalMap (("null").toList) = none := by decide
example : saveState (some []) = [lbrace, rbrace] := by decide
example : jsonUnmarshalMap (saveState (some [(("8.8.8.8").toList, 2)])) =
    some [(("8.8.8.8").toList, 2)] := by decide
example : jsonUnmarshalMap (saveState none) = none := by decide

/-- C4 (code bug): a malformed state file does load with no error, but the
mapping returned is Go's nil map, not an allocated empty map; the run then
does not proceed from empty state, because the first offense-count increment
`state[ip]++` assigns to a nil map entry and panics (`none`, second
conjunct), whereas from a genuinely empty state the same address is
processed normally (third conjunct, the behavior the claim describes). -/
theorem loadState_malformed_nil_panics :
    loadState (.content (("oops").toList)) = .ok none ∧
      processIP cfgW none (("203.0.113.25").toList) = none ∧
      processIP cfgW (some []) (("203.0.113.25").toList) =
        some (some [(("203.0.113.25").toList, 1)],
          some ⟨cfgW.listTemp, ("203.0.113.25").toList,
            ['0', '1', ':', '0', '0', ':', '0', '0']⟩) :=
  ⟨rfl, by decide, by decide⟩

theorem natCharsAux_acc (fuel : Nat) :
    ∀ (n : Nat) (acc : List Char),
      natCharsAux fuel n acc = natCharsAux fuel n [] ++ acc := by
  induction fuel with
  | zero => intro n acc; rfl
  | succ fuel ih =>
    intro n acc
    rw [natCharsAux, natCharsAux]
    by_cases h10 : n < 10
    · rw [if_pos h10, if_pos h10]; rfl
    · rw [if_neg h10, if_neg h10, ih (n / 10) (digitChar (n % 10) :: acc),
        ih (n / 10) [digitChar (n % 10)], List.append_assoc, List.singleton_append]

theorem lt_ten_pow_self (m : Nat) : m < 10 ^ m :=
  Nat.lt_pow_self (by norm_num) m

theorem lt_ten_pow_succ (m : Nat) : m < 10 ^ (m + 1) :=
  lt_of_lt_of_le (lt_ten_pow_self m) (Nat.pow_le_pow_right (by norm_num) (Nat.le_succ m))

theorem natCharsAux_fuel (f1 : Nat) :
    ∀ (f2 n : Nat), 1 ≤ f1 → 1 ≤ f2 → n < 10 ^ f1 → n < 10 ^ f2 →
      natCharsAux f1 n [] = natCharsAux f2 n [] := by
  induction f1 with
  | zero => intro f2 n h1; omega
  | succ f1 ih =>
    intro f2 n _ h2 hn1 hn2
    cases f2 with
    | zero => omega
    | succ f2 =>
      rw [natCharsAux, natCharsAux]
      by_cases h10 : n < 10
      · rw [if_pos h10, if_pos h10]
      · rw [if_neg h10, if_neg h10, natCharsAux_acc f1, natCharsAux_acc f2]
        have hf1 : 1 ≤ f1 := by
          rcases Nat.eq_zero_or_pos f1 with h | h
          · subst h; simp at hn1; omega
          · exact h
        have hf2 : 1 ≤ f2 := by
          rcases Nat.eq_zero_or_pos f2 with h | h
          · subst h; simp at hn2; omega
          · exact h
        have hb1 : n / 10 < 10 ^ f1 := by
          rw [Nat.div_lt_iff_lt_mul (by norm_num)]
          calc n < 10 ^ (f1 + 1) := hn1
          _ = 10 ^ f1 * 10 := by rw [pow_succ]
        have hb2 : n / 10 < 10 ^ f2 := by
          rw [Nat.div_lt_iff_lt_mul (by norm_num)]
          calc n < 10 ^ (f2 + 1) := hn2
          _ = 10 ^ f2 * 10 := by rw [pow_succ]
        rw [ih f2 (n / 10) hf1 hf2 hb1 hb2]

theorem natChars_lt10 {n : Nat} (h : n < 10) : natChars n = [digitChar n] := by
  unfold natChars
  rw [natCharsAux, if_pos h]

theorem natChars_ge10 {n : Nat} (h : 10 ≤ n) :
    natChars n = natChars (n / 10) ++ [digitChar (n % 10)] := by
  unfold natChars
  conv =>
    lhs
    rw [natCharsAux, if_neg (by omega : ¬ n < 10)]
  rw [natCharsAux_acc n (n / 10) [digitChar (n % 10)]]
  congr 1
  exact natCharsAux_fuel n (n / 10 + 1) (n / 10) (by omega) (by omega)
    (lt_of_le_of_lt (Nat.div_le_self n 10) (lt_ten_pow_self n))
    (lt_ten_pow_succ (n / 10))

theorem isDigitCh_digitChar {d : Nat} (h : d < 10) : isDigitCh (digitChar d) = true := by
  unfold digitChar isDigitCh
  rw [if_pos h, toNat_charOfNat (by omega)]
  simp only [Bool.and_eq_true, decide_eq_true_eq]
  omega

theorem natChars_digits (n : Nat) : ∀ c ∈ natChars n, isDigitCh c = true := by
  induction n using Nat.strong_induction_on with
  | _ n ih =>
    by_cases h10 : n < 10
    · rw [natChars_lt10 h10]
      intro c hc
      rcases List.mem_cons.mp hc with h | h
      · subst h; exact isDigitCh_digitChar h10
      · cases h
    · rw [natChars_ge10 (by omega)]
      intro c hc
      rcases List.mem_append.mp hc with h | h
      · exact ih (n / 10) (by omega) c h
      · rcases List.mem_cons.mp h with h | h
        · subst h; exact isDigitCh_digitChar (by omega)
        · cases h

theorem natChars_val (n : Nat) :
    (natChars n).foldl (fun a c => 10 * a + (c.toNat - 48)) 0 = n := by
  induction n using Nat.strong_induction_on with
  | _ n ih =>
    by_cases h10 : n < 10
    · rw [natChars_lt10 h10]
      show 10 * 0 + ((digitChar n).toNat - 48) = n
      unfold digitChar
      rw [if_pos h10, toNat_charOfNat (by omega)]
      omega
    · rw [natChars_ge10 (by omega), List.foldl_append, ih (n / 10) (by omega)]
      show 10 * (n / 10) + ((digitChar (n % 10)).toNat - 48) = n
      unfold digitChar
      rw [if_pos (by omega : n % 10 < 10), toNat_charOfNat (by omega)]
      omega

theorem natChars_ne_nil (n : Nat) : natChars n ≠ [] := by
  by_cases h10 : n < 10
  · rw [natChars_lt10 h10]; simp
  · rw [natChars_ge10 (by omega)]; simp

theorem takeWhile_append_all {p : Char → Bool} :
    ∀ {xs rest : List Char}, (∀ c ∈ xs, p c = true) →
      (xs ++ rest).takeWhile p = xs ++ rest.takeWhile p := by
  intro xs
  induction xs with
  | nil => intro rest _; rfl
  | cons a l ih =>
    intro rest h
    rw [List.cons_append, List.takeWhile_cons, h a (List.mem_cons_self a l)]
    rw [ih (fun c hc => h c (List.mem_cons_of_mem a hc))]
    rfl

theorem dropWhile_append_all {p : Char → Bool} :
    ∀ {xs rest : List Char}, (∀ c ∈ xs, p c = true) →
      (xs ++ rest).dropWhile p = rest.dropWhile p := by
  intro xs
  induction xs with
  | nil => intro rest _; rfl
  | cons a l ih =>
    intro rest h
    rw [List.cons_append, List.dropWhile_cons, h a (List.mem_cons_self a l)]
    exact ih (fun c hc => h c (List.mem_cons_of_mem a hc))

theorem takeWhile_nil_of_head {p : Char → Bool} {rest : List Char}
    (h : ∀ c, rest.head? = some c → p c = false) : rest.takeWhile p = [] := by
  cases rest with
  | nil => rfl
  | cons a r => rw [List.takeWhile_cons, h a rfl]; simp

theorem dropWhile_self_of_head {p : Char → Bool} {rest : List Char}
    (h : ∀ c, rest.head? = some c → p c = false) : rest.dropWhile p = rest := by
  cases rest with
  | nil => rfl
  | cons a r => rw [List.dropWhile_cons, h a rfl]; simp

theorem parseDigits_natChars (n : Nat) {rest : GoStr}
    (hrest : ∀ c, rest.head? = some c → isDigitCh c = false) :
    parseDigits (natChars n ++ rest) = some (n, rest) := by
  unfold parseDigits
  rw [takeWhile_append_all (natChars_digits n), takeWhile_nil_of_head hrest,
    List.append_nil, dropWhile_append_all (natChars_digits n),
    dropWhile_self_of_head hrest]
  rw [if_neg (by simp [natChars_ne_nil n])]
  rw [natChars_val]

theorem intChars_ne_nil (v : Int) : intChars v ≠ [] := by
  unfold intChars
  by_cases hneg : v < 0
  · rw [if_pos hneg]; simp
  · rw [if_neg hneg]; exact natChars_ne_nil v.toNat

theorem parseJInt_intChars (v : Int)
    (hlo : -(9223372036854775808 : Int) ≤ v) (hhi : v ≤ 9223372036854775807)
    {rest : GoStr} (hrest : ∀ c, rest.head? = some c → isDigitCh c = false) :
    parseJInt (intChars v ++ rest) = some (v, rest) := by
  by_cases hneg : v < 0
  · rw [show intChars v = '-' :: natChars v.natAbs by
      unfold intChars; rw [if_pos hneg]]
    rw [List.cons_append]
    simp only [parseJInt]
    rw [if_pos trivial, parseDigits_natChars v.natAbs hrest]
    simp only [Option.map_some']
    rw [if_pos (by omega : v.natAbs ≤ 9223372036854775808)]
    have hv : -((v.natAbs : Nat) : Int) = v := by omega
    rw [hv]
  · have hform : intChars v = natChars v.toNat := by
      unfold intChars; rw [if_neg hneg]
    cases hx : natChars v.toNat with
    | nil => exact absurd hx (natChars_ne_nil _)
    | cons d ds =>
      have hd : isDigitCh d = true := by
        refine natChars_digits v.toNat d ?_
        rw [hx]; exact List.mem_cons_self d ds
      rw [hform, hx, List.cons_append]
      simp only [parseJInt]
      rw [if_neg (show ¬ d = '-' from fun he => by
        subst he; exact absurd hd (by decide))]
      rw [← List.cons_append, ← hx, parseDigits_natChars v.toNat hrest]
      simp only [Option.map_some']
      rw [if_pos (by omega : v.toNat ≤ 9223372036854775807)]
      have hv : ((v.toNat : Nat) : Int) = v := by omega
      rw [hv]

theorem escChar_safe {c : Char} (h : safeChar c = true) : escChar c = [c] := by
  unfold escChar; rw [if_pos h]

theorem flatten_escChar_safe {k : GoStr} (h : ∀ c ∈ k, safeChar c = true) :
    (k.map escChar).flatten = k := by
  induction k with
  | nil => rfl
  | cons c l ih =>
    rw [List.map_cons, List.flatten_cons, escChar_safe (h c (List.mem_cons_self c l)),
      ih (fun x hx => h x (List.mem_cons_of_mem c hx))]
    rfl

theorem ne_of_toNat_ne {c d : Char} (h : c.toNat ≠ d.toNat) : c ≠ d :=
  fun he => h (he ▸ rfl)

theorem safeChar_bounds {c : Char} (h : safeChar c = true) :
    32 ≤ c.toNat ∧ c.toNat ≤ 126 ∧ c.toNat ≠ 34 ∧ c.toNat ≠ 92 := by
  simp only [safeChar, Bool.and_eq_true, Bool.not_eq_true', Bool.or_eq_false_iff,
    decide_eq_true_eq, decide_eq_false_iff_not] at h
  omega

theorem parseKeyBody_safe {k : GoStr} (h : ∀ c ∈ k, safeChar c = true)
    (rest : GoStr) : parseKeyBody (k ++ '"' :: rest) = some (k, rest) := by
  induction k with
  | nil =>
    show parseKeyBody ('"' :: rest) = some ([], rest)
    unfold parseKeyBody
    rw [if_pos rfl]
  | cons c l ih =>
    have hb := safeChar_bounds (h c (List.mem_cons_self c l))
    rw [List.cons_append]
    unfold parseKeyBody
    rw [if_neg (ne_of_toNat_ne (by simpa using hb.2.2.1)),
      if_neg (ne_of_toNat_ne (by simpa using hb.2.2.2)),
      ih (fun x hx => h x (List.mem_cons_of_mem c hx))]
    rfl

theorem skipWs_cons_ws {c : Char} {r : GoStr} (h : jsonWs c = true) :
    skipWs (c :: r) = skipWs r := by
  unfold skipWs
  rw [List.dropWhile_cons, h]
  simp

theorem skipWs_cons_not {c : Char} {r : GoStr} (h : jsonWs c = false) :
    skipWs (c :: r) = c :: r := by
  unfold skipWs
  rw [List.dropWhile_cons, h]
  simp

theorem intChars_chars (v : Int) :
    ∀ c ∈ intChars v, c.toNat = 45 ∨ isDigitCh c = true := by
  unfold intChars
  by_cases hneg : v < 0
  · rw [if_pos hneg]
    intro c hc
    rcases List.mem_cons.mp hc with h | h
    · subst h; left; rfl
    · right; exact natChars_digits v.natAbs c h
  · rw [if_neg hneg]
    intro c hc
    right; exact natChars_digits v.toNat c hc

theorem skipWs_intChars (v : Int) (r : GoStr) :
    skipWs (intChars v ++ r) = intChars v ++ r := by
  cases hx : intChars v with
  | nil => exact absurd hx (intChars_ne_nil v)
  | cons c cs =>
    have hc : c.toNat = 45 ∨ isDigitCh c = true := by
      refine intChars_chars v c ?_
      rw [hx]; exact List.mem_cons_self c cs
    rw [List.cons_append]
    refine skipWs_cons_not ?_
    simp only [jsonWs, Bool.or_eq_true, decide_eq_true_eq, Bool.eq_false_iff, ne_eq, not_or]
    unfold isDigitCh at hc
    simp only [Bool.and_eq_true, decide_eq_true_eq] at hc
    omega

theorem dropWhile_idem {p : Char → Bool} (s : List Char) :
    (s.dropWhile p).dropWhile p = s.dropWhile p := by
  induction s with
  | nil => rfl
  | cons a r ih =>
    by_cases h : p a = true
    · rw [List.dropWhile_cons, if_pos h]; exact ih
    · rw [List.dropWhile_cons, if_neg h, List.dropWhile_cons, if_neg h]

theorem parseEntriesLoop_ws {c : Char} {r : GoStr} (fuel : Nat) (h : jsonWs c = true) :
    parseEntriesLoop (fuel + 1) (c :: r) = parseEntriesLoop (fuel + 1) r := by
  simp only [parseEntriesLoop]
  rw [skipWs_cons_ws h]

theorem parseEntriesLoop_skipWs (fuel : Nat) (s : GoStr) :
    parseEntriesLoop (fuel + 1) (skipWs s) = parseEntriesLoop (fuel + 1) s := by
  simp only [parseEntriesLoop]
  unfold skipWs
  rw [dropWhile_idem]

theorem skipWs_printEntry_head (k : GoStr) (v : Int) (X : GoStr) :
    skipWs (printEntry (k, v) ++ X) =
      '"' :: ((k.map escChar).flatten ++ '"' :: (':' :: ' ' :: (intChars v ++ X))) := by
  show skipWs (' ' :: ' ' :: (quoteKey k ++ ':' :: ' ' :: intChars v) ++ X) = _
  rw [List.cons_append, List.cons_append,
    skipWs_cons_ws (show jsonWs ' ' = true from by decide),
    skipWs_cons_ws (show jsonWs ' ' = true from by decide)]
  rw [show (quoteKey k ++ ':' :: ' ' :: intChars v) ++ X =
      '"' :: ((k.map escChar).flatten ++ '"' :: (':' :: ' ' :: (intChars v ++ X))) from by
    simp [quoteKey]]
  exact skipWs_cons_not (by decide)

theorem parseEntriesLoop_entry (k : GoStr) (v : Int) (r3tail : GoStr) (fuel : Nat)
    (hk : ∀ c ∈ k, safeChar c = true)
    (hlo : -(9223372036854775808 : Int) ≤ v) (hhi : v ≤ 9223372036854775807)
    (htail : ∀ c, r3tail.head? = some c → isDigitCh c = false) :
    parseEntriesLoop (fuel + 1) (printEntry (k, v) ++ r3tail) =
      (match skipWs r3tail with
       | ',' :: r4 => (parseEntriesLoop fuel r4).map (fun p => ((k, v) :: p.1, p.2))
       | c :: r4 => if c = rbrace then some ([(k, v)], r4) else none
       | [] => none) := by
  simp only [parseEntriesLoop]
  rw [skipWs_printEntry_head k v r3tail, flatten_escChar_safe hk]
  simp only [parseKey]
  rw [if_pos trivial, parseKeyBody_safe hk]
  simp only
  rw [skipWs_cons_not (show jsonWs ':' = false from by decide)]
  simp only
  rw [skipWs_cons_ws (show jsonWs ' ' = true from by decide), skipWs_intChars v r3tail,
    parseJInt_intChars v hlo hhi htail]

theorem parseEntriesLoop_print (es : AssocList) :
    ∀ fuel, es ≠ [] →
      (∀ e ∈ es, ∀ c ∈ e.1, safeChar c = true) →
      (∀ e ∈ es, -(9223372036854775808 : Int) ≤ e.2 ∧ e.2 ≤ 9223372036854775807) →
      es.length ≤ fuel →
      parseEntriesLoop fuel (printEntries es ++ '\n' :: [rbrace]) = some (es, []) := by
  induction es with
  | nil => intro fuel h; exact absurd rfl h
  | cons e es' ih =>
    intro fuel _ hsafe hvals hfuel
    obtain ⟨k, v⟩ := e
    cases fuel with
    | zero => simp only [List.length_cons] at hfuel; omega
    | succ fuel =>
      cases es' with
      | nil =>
        rw [show printEntries [(k, v)] = printEntry (k, v) from rfl,
          parseEntriesLoop_entry k v ('\n' :: [rbrace]) fuel
            (hsafe (k, v) (List.mem_cons_self _ _))
            (hvals (k, v) (List.mem_cons_self _ _)).1
            (hvals (k, v) (List.mem_cons_self _ _)).2
            (fun c hc => by rw [← Option.some.inj hc]; decide)]
        rw [show skipWs ('\n' :: [rbrace]) = [rbrace] from by decide]
        show (if rbrace = rbrace then some ([(k, v)], []) else none) = some ([(k, v)], [])
        rw [if_pos rfl]
      | cons e2 es'' =>
        rw [show printEntries ((k, v) :: e2 :: es'') ++ '\n' :: [rbrace] =
            printEntry (k, v) ++
              (',' :: '\n' :: (printEntries (e2 :: es'') ++ '\n' :: [rbrace])) from by
          rw [show printEntries ((k, v) :: e2 :: es'') =
            printEntry (k, v) ++ ',' :: '\n' :: printEntries (e2 :: es'') from rfl]
          simp [List.append_assoc]]
        rw [parseEntriesLoop_entry k v _ fuel
          (hsafe (k, v) (List.mem_cons_self _ _))
          (hvals (k, v) (List.mem_cons_self _ _)).1
          (hvals (k, v) (List.mem_cons_self _ _)).2
          (fun c hc => by rw [← Option.some.inj hc]; decide)]
        rw [skipWs_cons_not (show jsonWs ',' = false from by decide)]
        show (parseEntriesLoop fuel
            ('\n' :: (printEntries (e2 :: es'') ++ '\n' :: [rbrace]))).map
            (fun p => ((k, v) :: p.1, p.2)) = some ((k, v) :: e2 :: es'', [])
        cases fuel with
        | zero => simp only [List.length_cons] at hfuel; omega
        | succ f2 =>
          rw [parseEntriesLoop_ws f2 (show jsonWs '\n' = true from by decide)]
          rw [ih (f2 + 1) (by simp)
            (fun x hx => hsafe x (List.mem_cons_of_mem _ hx))
            (fun x hx => hvals x (List.mem_cons_of_mem _ hx))
            (by simp only [List.length_cons] at hfuel ⊢; omega)]
          rfl

theorem printEntries_length_ge (es : AssocList) :
    es.length ≤ (printEntries es).length := by
  induction es with
  | nil => simp [printEntries]
  | cons e rest ih =>
    cases rest with
    | nil =>
      obtain ⟨k, v⟩ := e
      show 1 ≤ (' ' :: ' ' :: (quoteKey k ++ ':' :: ' ' :: intChars v)).length
      simp
    | cons e2 rest2 =>
      rw [show printEntries (e :: e2 :: rest2) =
        printEntry e ++ ',' :: '\n' :: printEntries (e2 :: rest2) from rfl]
      simp only [List.length_cons, List.length_append] at ih ⊢
      omega

theorem skipWs_printEntries_cons (e : GoStr × Int) (es : AssocList) (tail : GoStr) :
    ∃ w, skipWs (printEntries (e :: es) ++ tail) = '"' :: w := by
  obtain ⟨k, v⟩ := e
  cases es with
  | nil => exact ⟨_, skipWs_printEntry_head k v tail⟩
  | cons e2 es' =>
    refine ⟨(k.map escChar).flatten ++ '"' :: (':' :: ' ' :: (intChars v ++
      (',' :: '\n' :: (printEntries (e2 :: es') ++ tail)))), ?_⟩
    rw [show printEntries ((k, v) :: e2 :: es') ++ tail =
        printEntry (k, v) ++ (',' :: '\n' :: (printEntries (e2 :: es') ++ tail)) from by
      rw [show printEntries ((k, v) :: e2 :: es') =
        printEntry (k, v) ++ ',' :: '\n' :: printEntries (e2 :: es') from rfl]
      simp [List.append_assoc]]
    exact skipWs_printEntry_head k v _

theorem jsonUnmarshalMap_marshal (m : AssocList) (hne : m ≠ [])
    (hsafe : ∀ e ∈ m, ∀ c ∈ e.1, safeChar c = true)
    (hvals : ∀ e ∈ m, -(9223372036854775808 : Int) ≤ e.2 ∧ e.2 ≤ 9223372036854775807) :
    jsonUnmarshalMap (jsonMarshalIndent (some m)) =
      some (entriesToMap (List.insertionSort entryLe m)) := by
  cases hs : List.insertionSort entryLe m with
  | nil =>
    have hperm := List.perm_insertionSort entryLe m
    rw [hs] at hperm
    exact absurd (List.perm_nil.mp hperm.symm) hne
  | cons e es =>
    obtain ⟨k, v⟩ := e
    have hsafeS : ∀ x ∈ (k, v) :: es, ∀ c ∈ x.1, safeChar c = true := by
      intro x hx
      have hx2 : x ∈ List.insertionSort entryLe m := by rw [hs]; exact hx
      exact hsafe x ((List.mem_insertionSort entryLe).mp hx2)
    have hvalsS : ∀ x ∈ (k, v) :: es,
        -(9223372036854775808 : Int) ≤ x.2 ∧ x.2 ≤ 9223372036854775807 := by
      intro x hx
      have hx2 : x ∈ List.insertionSort entryLe m := by rw [hs]; exact hx
      exact hvals x ((List.mem_insertionSort entryLe).mp hx2)
    have hmarshal : jsonMarshalIndent (some m) =
        lbrace :: '\n' :: (printEntries ((k, v) :: es) ++ '\n' :: [rbrace]) := by
      simp only [jsonMarshalIndent]
      rw [hs, if_neg (by simp)]
      simp [List.cons_append]
    rw [hmarshal]
    obtain ⟨w, hw⟩ := skipWs_printEntries_cons (k, v) es ('\n' :: [rbrace])
    have h1 : skipWs (lbrace :: '\n' :: (printEntries ((k, v) :: es) ++ '\n' :: [rbrace])) =
        lbrace :: ('\n' :: (printEntries ((k, v) :: es) ++ '\n' :: [rbrace])) :=
      skipWs_cons_not (by decide)
    have hobj : parseObj (lbrace :: '\n' :: (printEntries ((k, v) :: es) ++ '\n' :: [rbrace])) =
        some ((k, v) :: es, []) := by
      simp only [parseObj, h1]
      rw [if_pos trivial, skipWs_cons_ws (show jsonWs '\n' = true from by decide), hw]
      show (if '"' = rbrace then some (([] : AssocList), w)
          else parseEntriesLoop
            ((lbrace :: '\n' :: (printEntries ((k, v) :: es) ++ '\n' :: [rbrace])).length + 1)
            ('"' :: w)) = some ((k, v) :: es, [])
      rw [if_neg (show ¬ '"' = rbrace from by decide), ← hw, parseEntriesLoop_skipWs]
      exact parseEntriesLoop_print ((k, v) :: es) _ (by simp) hsafeS hvalsS (by
        have hge := printEntries_length_ge ((k, v) :: es)
        simp only [List.length_cons, List.length_append] at hge ⊢
        omega)
    unfold jsonUnmarshalMap
    rw [hobj]
    rfl

theorem mapSet_append {m : AssocList} {k : GoStr} {v : Int}
    (h : ∀ e ∈ m, e.1 ≠ k) : mapSet m k v = m ++ [(k, v)] := by
  induction m with
  | nil => rfl
  | cons e rest ih =>
    unfold mapSet
    rw [show (e.1 == k) = false from
      beq_eq_false_iff_ne.mpr (h e (List.mem_cons_self e rest))]
    simp only [Bool.false_eq_true, if_false, List.cons_append]
    rw [ih (fun x hx => h x (List.mem_cons_of_mem e hx))]

theorem foldl_mapSet_append (es : AssocList) :
    ∀ acc : AssocList, (es.map (fun e => e.1)).Nodup →
      (∀ e ∈ es, ∀ a ∈ acc, a.1 ≠ e.1) →
      es.foldl (fun acc e => mapSet acc e.1 e.2) acc = acc ++ es := by
  induction es with
  | nil => intro acc _ _; simp
  | cons e rest ih =>
    intro acc hnd hdisj
    obtain ⟨hhead, htail⟩ :=
      List.nodup_cons.mp (show (e.1 :: rest.map (fun x => x.1)).Nodup from hnd)
    rw [List.foldl_cons, mapSet_append (fun a ha => hdisj e (List.mem_cons_self e rest) a ha)]
    rw [ih (acc ++ [e]) htail (fun e2 he2 a ha => ?_)]
    · rw [List.append_assoc]; rfl
    · rcases List.mem_append.mp ha with h | h
      · exact hdisj e2 (List.mem_cons_of_mem e he2) a h
      · rcases List.mem_cons.mp h with h | h
        · subst h
          intro heq
          exact hhead (heq ▸ List.mem_map_of_mem (fun x => x.1) he2)
        · cases h

theorem entriesToMap_nodup {es : AssocList} (h : (es.map (fun e => e.1)).Nodup) :
    entriesToMap es = es := by
  unfold entriesToMap
  rw [foldl_mapSet_append es [] h (fun e _ a ha => absurd ha (List.not_mem_nil a))]
  rfl

theorem mapLookup_eq_none_iff {m : AssocList} {k : GoStr} :
    mapLookup m k = none ↔ k ∉ m.map (fun e => e.1) := by
  induction m with
  | nil => simp [mapLookup]
  | cons e rest ih =>
    by_cases hek : e.1 = k
    · rw [show mapLookup (e :: rest) k = some e.2 from by
        unfold mapLookup; rw [List.find?_cons]; simp [hek]]
      simp [hek]
    · rw [show mapLookup (e :: rest) k = mapLookup rest k from by
        unfold mapLookup; rw [List.find?_cons]
        simp [show (e.1 == k) = false from beq_eq_false_iff_ne.mpr hek]]
      rw [ih]
      simp [Ne.symm hek]

theorem mapLookup_eq_some_iff {m : AssocList} {k : GoStr} {v : Int}
    (hnd : (m.map (fun e => e.1)).Nodup) :
    mapLookup m k = some v ↔ (k, v) ∈ m := by
  induction m with
  | nil => simp [mapLookup]
  | cons e rest ih =>
    obtain ⟨hhead, htail⟩ :=
      List.nodup_cons.mp (show (e.1 :: rest.map (fun x => x.1)).Nodup from hnd)
    obtain ⟨k0, v0⟩ := e
    by_cases hek : k0 = k
    · subst hek
      rw [show mapLookup ((k0, v0) :: rest) k0 = some v0 from by
        unfold mapLookup; rw [List.find?_cons]; simp]
      constructor
      · intro hv
        have hv2 : v0 = v := Option.some.inj hv
        subst hv2
        exact List.mem_cons_self _ _
      · intro hmem
        rcases List.mem_cons.mp hmem with h | h
        · injection h with h1 h2
          rw [h2]
        · exact absurd (List.mem_map_of_mem (fun x => x.1) h) hhead
    · rw [show mapLookup ((k0, v0) :: rest) k = mapLookup rest k from by
        unfold mapLookup; rw [List.find?_cons]
        simp [show ((k0, v0).1 == k) = false from beq_eq_false_iff_ne.mpr hek]]
      rw [ih htail]
      simp only [List.mem_cons]
      constructor
      · exact fun h => Or.inr h
      · rintro (h | h)
        · injection h with h1 h2
          exact absurd h1.symm hek
        · exact h

theorem mapLookup_perm {m1 m2 : AssocList} (hp : m1.Perm m2)
    (hnd : (m1.map (fun e => e.1)).Nodup) (k : GoStr) :
    mapLookup m1 k = mapLookup m2 k := by
  have hnd2 : (m2.map (fun e => e.1)).Nodup := ((hp.map (fun e => e.1)).nodup_iff).mp hnd
  cases hx : mapLookup m1 k with
  | none =>
    have h1 := mapLookup_eq_none_iff.mp hx
    refine (mapLookup_eq_none_iff.mpr ?_).symm
    exact fun hm => h1 ((hp.map (fun e => e.1)).mem_iff.mpr hm)
  | some v =>
    have h1 := (mapLookup_eq_some_iff hnd).mp hx
    exact ((mapLookup_eq_some_iff hnd2).mpr (hp.mem_iff.mp h1)).symm

/-- C7: persistence round trip — `saveState` followed by `loadState` on the
written content reproduces the same count mapping (same value under every
key).  The hypotheses record what holds of every state map the program
builds: keys are distinct (they are Go map keys), keys consist of JSON-safe
characters (canonical addresses are digits, hex letters, dots and colons),
and the counts are Go `int` values, i.e. in the `int64` range. -/
theorem saveState_loadState_roundtrip (m : AssocList)
    (hnd : (m.map (fun e => e.1)).Nodup)
    (hsafe : ∀ e ∈ m, ∀ c ∈ e.1, safeChar c = true)
    (hvals : ∀ e ∈ m, -(9223372036854775808 : Int) ≤ e.2 ∧ e.2 ≤ 9223372036854775807) :
    ∃ m2, loadState (.content (saveState (some m))) = .ok (some m2) ∧
      ∀ k, mapLookup m2 k = mapLookup m k := by
  by_cases hne : m = []
  · subst hne
    exact ⟨[], rfl, fun k => rfl⟩
  · have hperm := List.perm_insertionSort entryLe m
    have hndS : ((List.insertionSort entryLe m).map (fun e => e.1)).Nodup :=
      ((hperm.map (fun e => e.1)).nodup_iff).mpr hnd
    refine ⟨List.insertionSort entryLe m, ?_, ?_⟩
    · show Except.ok (jsonUnmarshalMap (jsonMarshalIndent (some m))) = _
      rw [jsonUnmarshalMap_marshal m hne hsafe hvals, entriesToMap_nodup hndS]
    · exact fun k => mapLookup_perm hperm hndS k

/-- Witness for C7: a two-entry state round-trips through the file content. -/
theorem saveState_loadState_roundtrip_witness :
    ∃ m2, loadState (.content (saveState (some
        [(("203.0.113.25").toList, 2), (("2001:db8::1").toList, -3)]))) = .ok (some m2) ∧
      ∀ k, mapLookup m2 k =
        mapLookup [(("203.0.113.25").toList, 2), (("2001:db8::1").toList, -3)] k :=
  saveState_loadState_roundtrip
    [(("203.0.113.25").toList, 2), (("2001:db8::1").toList, -3)]
    (by decide) (by decide) (by decide)
